import Mathlib

/-!
Verification of the token-list reconciliation and virtualization pipeline of the
`zero-given/site` dashboard (component `TokenEventsList` and its status bar).

The definitions below are a shallow embedding of the client-side logic found in
`src/frontend/src/components/TokenEventsList.tsx` (and its near-duplicate in the
unnamed list-component file): the filter/sort engine `filteredTokens`, the trend
estimator `calculateTrend`, the row-height model `estimateSize`, the expansion
bulk toggle, the click handler's cache/scroll effects, and the persisted history
cache loader.  JavaScript numbers are modelled as rationals, JS `Set`/`Map`
objects as `Finset`/functions to `Option`, and JS string primitives as
structurally recursive functions over the underlying character lists.
-/

namespace TokenList

/-- Risk classification carried by each token (`riskLevel` field). -/
inductive RiskLevel
  | safe
  | warning
  | danger
deriving DecidableEq

/-- One parsed entry of the serialized `gpLpHolders` JSON payload: a liquidity
holder record with its locked flag and fractional share. -/
structure LpHolder where
  is_locked : Bool
  percent : ℚ
deriving DecidableEq

/-- Token record as consumed by `TokenEventsList` (the fields the core logic
reads).  `gpLpHolders` models the serialized lock descriptor: `none` stands for
a string `JSON.parse` rejects, `some hs` for a successfully parsed array. -/
structure Token where
  tokenAddress : String
  tokenName : String
  tokenSymbol : String
  tokenAgeHours : ℚ
  gpHolderCount : ℚ
  hpLiquidityAmount : ℚ
  gpBuyTax : ℚ
  gpSellTax : ℚ
  hpIsHoneypot : Bool
  riskLevel : RiskLevel
  gpOwnerAddress : String
  gpLpHolders : Option (List LpHolder)
deriving DecidableEq

/-- The filter configuration record (`FilterState` in `types.ts`), as used by
the filtering predicate and sort comparator. -/
structure FilterState where
  minHolders : ℚ
  minLiquidity : ℚ
  hideHoneypots : Bool
  showOnlyHoneypots : Bool
  hideDanger : Bool
  hideWarning : Bool
  showOnlySafe : Bool
  hideNotRenounced : Bool
  hideUnlockedLiquidity : Bool
  searchQuery : String
  sortBy : String
  sortDirection : String
  maxRecords : ℕ
  hideStagnantHolders : Bool
  hideStagnantLiquidity : Bool
  stagnantRecordCount : ℕ
deriving DecidableEq

/-- The default `FilterState` produced by `getSavedFilters` when nothing (or a
malformed blob) is persisted. -/
def defaultFilters : FilterState where
  minHolders := 0
  minLiquidity := 0
  hideHoneypots := false
  showOnlyHoneypots := false
  hideDanger := false
  hideWarning := false
  showOnlySafe := false
  hideNotRenounced := false
  hideUnlockedLiquidity := false
  searchQuery := ""
  sortBy := "age"
  sortDirection := "desc"
  maxRecords := 50
  hideStagnantHolders := false
  hideStagnantLiquidity := false
  stagnantRecordCount := 10

/-- The canonical zero address against which `gpOwnerAddress` is compared. -/
def zeroAddress : String := "0x0000000000000000000000000000000000000000"

/-! JS string primitives, modelled structurally over the character list so that
they compute by kernel reduction. -/

/-- JS `String.prototype.toLowerCase`, modelled characterwise. -/
def jsToLower (s : String) : String := ⟨s.data.map Char.toLower⟩

/-- JS `String.prototype.endsWith` with a string argument. -/
def jsEndsWith (s p : String) : Bool := p.data.isSuffixOf s.data

/-- Helper for `jsIncludes`: does `sub` occur contiguously inside the list? -/
def containsSub : List Char → List Char → Bool
  | [], sub => sub.isEmpty
  | c :: rest, sub => sub.isPrefixOf (c :: rest) || containsSub rest sub

/-- JS `String.prototype.includes`: contiguous substring test. -/
def jsIncludes (s sub : String) : Bool := containsSub s.data sub.data

/-- Helper for `jsReplaceFirst`: replace the first occurrence of `pat`. -/
def replaceFirstAux (pat rep : List Char) : List Char → List Char
  | [] => []
  | c :: rest =>
    if pat.isPrefixOf (c :: rest) then rep ++ (c :: rest).drop pat.length
    else c :: replaceFirstAux pat rep rest

/-- JS `String.prototype.replace` with a plain-string pattern: replaces only
the first occurrence. -/
def jsReplaceFirst (s pat rep : String) : String := ⟨replaceFirstAux pat.data rep.data s.data⟩

/-! The Filter/Sort Engine (`filteredTokens` memo, lines 119-212 of
`TokenEventsList.tsx`). -/

/-- The search-query test of the filter predicate (lines 159-170): a
case-insensitive substring match against name, symbol, or address. -/
def searchMatches (searchQuery : String) (t : Token) : Bool :=
  let query := jsToLower searchQuery
  jsIncludes (jsToLower t.tokenName) query ||
  jsIncludes (jsToLower t.tokenSymbol) query ||
  jsIncludes (jsToLower t.tokenAddress) query

/-- `lpHolders.reduce((acc, holder) => acc + (holder.is_locked ? Number(holder.percent) * 100 : 0), 0)`. -/
def totalLockedPercent (hs : List LpHolder) : ℚ :=
  hs.foldl (fun acc h => acc + (if h.is_locked then h.percent * 100 else 0)) 0

/-- The `hideUnlockedLiquidity` body (lines 134-144): rejects when the lock
descriptor fails to parse (the `catch` branch) or the locked total is
below 90. -/
def lockFilterRejects (t : Token) : Bool :=
  match t.gpLpHolders with
  | none => true
  | some hs => decide (totalLockedPercent hs < 90)

/-- The filter predicate applied to each token (the `result.filter` callback,
lines 125-173).  Each early `return false` becomes an `if ... then false`
branch, in source order; the search-query test is the final verdict when
reached. -/
def tokenFilter (f : FilterState) (t : Token) : Bool :=
  if f.hideHoneypots ∧ t.hpIsHoneypot then false
  else if f.showOnlyHoneypots ∧ ¬t.hpIsHoneypot then false
  else if f.hideDanger ∧ t.riskLevel = RiskLevel.danger then false
  else if f.hideWarning ∧ t.riskLevel = RiskLevel.warning then false
  else if f.showOnlySafe ∧ t.riskLevel ≠ RiskLevel.safe then false
  else if f.hideNotRenounced ∧ t.gpOwnerAddress ≠ zeroAddress then false
  else if f.hideUnlockedLiquidity ∧ lockFilterRejects t then false
  else if 0 < f.minHolders ∧ t.gpHolderCount < f.minHolders then false
  else if 0 < f.minLiquidity ∧ t.hpLiquidityAmount < f.minLiquidity then false
  else if f.searchQuery ≠ "" then searchMatches f.searchQuery t
  else true

/-- `getRiskScore` (lines 20-31): safety ordinal of the risk level. -/
def getRiskScore (t : Token) : ℚ :=
  match t.riskLevel with
  | RiskLevel.safe => 2
  | RiskLevel.warning => 1
  | RiskLevel.danger => 0

/-- The `switch (field)` body of the sort comparator (lines 189-202), with the
already-extracted direction. -/
def compareByField (field : String) (direction : ℚ) (a b : Token) : ℚ :=
  if field = "age" then (b.tokenAgeHours - a.tokenAgeHours) * direction
  else if field = "holders" then (a.gpHolderCount - b.gpHolderCount) * direction
  else if field = "liquidity" then (a.hpLiquidityAmount - b.hpLiquidityAmount) * direction
  else if field = "safetyScore" then (getRiskScore a - getRiskScore b) * direction
  else 0

/-- The sort comparator (lines 176-203): `_asc` suffix selects ascending
direction and is stripped to obtain the field name; default is descending. -/
def compareTokens (sortBy : String) (a b : Token) : ℚ :=
  if jsEndsWith sortBy "_asc" then compareByField (jsReplaceFirst sortBy "_asc" "") 1 a b
  else compareByField sortBy (-1) a b

/-- The Filter/Sort Engine (`filteredTokens`): filter, stable sort by the
comparator, then truncate to `maxRecords`.  JS `Array.prototype.sort` is a
stable sort placing `a` before `b` when the comparator is nonpositive, which
insertion sort with relation `compareTokens ... ≤ 0` realizes. -/
def filteredTokens (tokens : List Token) (f : FilterState) : List Token :=
  (((tokens.filter (tokenFilter f)).insertionSort
    (fun a b => compareTokens f.sortBy a b ≤ 0)).take f.maxRecords)

/-! The Trend Estimator (`calculateTrend`, lines 676-716). -/

/-- One time-stamped history observation (`{timestamp, totalLiquidity, holderCount}`). -/
structure HistorySample where
  timestamp : ℚ
  totalLiquidity : ℚ
  holderCount : ℚ
deriving DecidableEq

/-- The two metrics a trend is computed for (the `type` argument). -/
inductive TrendMetric
  | liquidity
  | holders
deriving DecidableEq

/-- The categorical trend result. -/
inductive TrendValue
  | up
  | down
  | stagnant
deriving DecidableEq

/-- The per-record metric selection (`type === 'liquidity' ? record.totalLiquidity : record.holderCount`). -/
def selectY (type : TrendMetric) (s : HistorySample) : ℚ :=
  match type with
  | TrendMetric.liquidity => s.totalLiquidity
  | TrendMetric.holders => s.holderCount

/-- `[...history].sort((a, b) => a.timestamp - b.timestamp)`: stable ascending
sort by timestamp. -/
def sortHistory (history : List HistorySample) : List HistorySample :=
  history.insertionSort (fun a b => a.timestamp ≤ b.timestamp)

/-- `reduce((a, b) => a + b, 0)`. -/
def rSum (l : List ℚ) : ℚ := l.foldl (· + ·) 0

/-- The least-squares slope computed inside `calculateTrend` (lines 692-700):
the y-values are regressed against the sample index. -/
def regressionSlope (ys : List ℚ) : ℚ :=
  let xPoints : List ℚ := (List.range ys.length).map (fun i : ℕ => (i : ℚ))
  let xMean : ℚ := rSum xPoints / (xPoints.length : ℚ)
  let yMean : ℚ := rSum ys / (ys.length : ℚ)
  let num : ℚ := ((xPoints.zip ys).map (fun p => (p.1 - xMean) * (p.2 - yMean))).foldl (· + ·) 0
  let den : ℚ := (xPoints.map (fun x => (x - xMean) ^ 2)).foldl (· + ·) 0
  num / den

/-- The Trend Estimator: fewer than 2 samples is stagnant; otherwise re-sort by
timestamp, select the metric, regress against the index and classify with
threshold `0.05`. -/
def calculateTrend (history : List HistorySample) (type : TrendMetric) : TrendValue :=
  if history.length < 2 then TrendValue.stagnant
  else
    let sortedHistory := sortHistory history
    let yPoints := sortedHistory.map (selectY type)
    let slope := regressionSlope yPoints
    if |slope| < 0.05 then TrendValue.stagnant
    else if 0 < slope then TrendValue.up
    else TrendValue.down

/-! Expansion state, measured heights, and the virtualization-facing
operations. -/

/-- `toggleTokenExpansion` (lines 74-84): flip membership of an address in the
expansion set. -/
def toggleTokenExpansion (prev : Finset String) (tokenAddress : String) : Finset String :=
  if tokenAddress ∈ prev then prev.erase tokenAddress else insert tokenAddress prev

/-- The expand-all/collapse-all bulk operation (the button `onClick`,
lines 814-823): if any currently filtered token is expanded, collapse all;
otherwise expand exactly the filtered tokens. -/
def toggleExpandAll (currentTokens : List Token) (prev : Finset String) : Finset String :=
  if ∃ t ∈ currentTokens, t.tokenAddress ∈ prev then ∅
  else (currentTokens.map (fun t => t.tokenAddress)).toFinset

/-- `filteredTokens().findIndex(t => t.tokenAddress === tokenAddress)`: JS
`findIndex` yields `-1` when the address is absent. -/
def findTokenIdx (cur : List Token) (tokenAddress : String) : ℤ :=
  match cur.findIdx? (fun t => t.tokenAddress == tokenAddress) with
  | some n => (n : ℤ)
  | none => -1

/-- The state the click handler mutates: the expansion set, the positional
measured-heights map, and the issued scroll-to-index request (if any). -/
structure ClickEffects where
  expandedTokens : Finset String
  measuredHeights : ℤ → Option ℚ
  scrollTarget : Option ℤ
deriving Inhabited

/-- `handleTokenClick` (lines 303-339), restricted to its state effects: toggle
the expansion set, delete the clicked row's measured height (positional key),
and request `scrollToIndex` at that row when it was found. -/
def handleTokenClick (cur : List Token) (expanded : Finset String)
    (heights : ℤ → Option ℚ) (tokenAddress : String) : ClickEffects :=
  let newExpanded := toggleTokenExpansion expanded tokenAddress
  let index : ℤ := findTokenIdx cur tokenAddress
  { expandedTokens := newExpanded
    measuredHeights := fun j => if j = index then none else heights j
    scrollTarget := if 0 ≤ index then some index else none }

/-- `COLLAPSED_HEIGHT` (line 222). -/
def COLLAPSED_HEIGHT : ℚ := 42

/-- `EXPANDED_HEIGHT` (line 223). -/
def EXPANDED_HEIGHT : ℚ := 800

/-- JS array indexing `filteredTokens()[index]` over an arbitrary integer
index: negative indices read `undefined`. -/
def listGetJS (l : List Token) (i : ℤ) : Option Token :=
  if 0 ≤ i then l[i.toNat]? else none

/-- `estimateSize` (lines 225-237).  A stored measurement is used only when it
is truthy in JS, i.e. nonzero; otherwise the expansion-based fallback applies;
an index with no token yields the collapsed constant. -/
def estimateSize (cur : List Token) (heights : ℤ → Option ℚ)
    (expanded : Finset String) (index : ℤ) : ℚ :=
  match listGetJS cur index with
  | none => COLLAPSED_HEIGHT
  | some token =>
    let fallback : ℚ :=
      if token.tokenAddress ∈ expanded then EXPANDED_HEIGHT else COLLAPSED_HEIGHT
    match heights index with
    | some h => if h = 0 then fallback else h
    | none => fallback

/-! The persisted History Cache loader (`loadCachedHistories`, lines 390-403). -/

/-- The persisted blob `{timestamp, data}`; the loader receives `none` when the
key is absent or `JSON.parse`/destructuring throws (the `catch` branch). -/
structure HistoryCacheBlob where
  timestamp : ℤ
  data : List (String × List HistorySample)
deriving DecidableEq

/-- `HISTORY_CACHE_EXPIRY = 5 * 60 * 1000` milliseconds (line 388). -/
def HISTORY_CACHE_EXPIRY : ℤ := 5 * 60 * 1000

/-- `loadCachedHistories`: the stored mapping is returned only when the blob is
present, parses, and is younger than the expiry; otherwise the cache starts
empty, and errors never propagate. -/
def loadCachedHistories (cached : Option HistoryCacheBlob) (now : ℤ) :
    List (String × List HistorySample) :=
  match cached with
  | some blob => if now - blob.timestamp < HISTORY_CACHE_EXPIRY then blob.data else []
  | none => []

/-! Concrete sample data used by witnesses and counterexamples. -/

/-- A benign concrete token. -/
def tokenAlpha : Token where
  tokenAddress := "0xaaaa"
  tokenName := "Alpha"
  tokenSymbol := "ALP"
  tokenAgeHours := 1
  gpHolderCount := 100
  hpLiquidityAmount := 1000
  gpBuyTax := 0
  gpSellTax := 0
  hpIsHoneypot := false
  riskLevel := RiskLevel.safe
  gpOwnerAddress := zeroAddress
  gpLpHolders := some [⟨true, 1⟩]

/-- A second concrete token, older than `tokenAlpha`. -/
def tokenBeta : Token :=
  { tokenAlpha with
    tokenAddress := "0xbbbb"
    tokenName := "Beta"
    tokenSymbol := "BET"
    tokenAgeHours := 2 }

/-- A third concrete token, older still. -/
def tokenGamma : Token :=
  { tokenAlpha with
    tokenAddress := "0xcccc"
    tokenName := "Gamma"
    tokenSymbol := "GAM"
    tokenAgeHours := 3 }

/-- A danger-rated token whose name matches the search queries used below. -/
def tokenDanger : Token :=
  { tokenAlpha with
    tokenAddress := "0xdddd"
    tokenName := "DangerCoin"
    tokenSymbol := "DGR"
    riskLevel := RiskLevel.danger }

/-- A filter state with only a search query set. -/
def searchFilters : FilterState := { defaultFilters with searchQuery := "alp" }

/-- A filter state hiding danger-rated tokens while searching for one. -/
def dangerSearchFilters : FilterState :=
  { defaultFilters with hideDanger := true, searchQuery := "dangercoin" }

/-- A filter state with both honeypot toggles set simultaneously. -/
def honeypotConflictFilters : FilterState :=
  { defaultFilters with hideHoneypots := true, showOnlyHoneypots := true }

/-- A persisted history blob stored at epoch time 0. -/
def staleBlob : HistoryCacheBlob := ⟨0, [("0xaaaa", [])]⟩

/-- Concrete history samples used by the trend witnesses. -/
def sampleT0 : HistorySample := ⟨0, 0, 0⟩

/-- Second concrete history sample: tiny liquidity rise, unit holder rise. -/
def sampleT1 : HistorySample := ⟨1, 1/100, 1⟩

/-- The comparator-induced relation is total: the comparator is antisymmetric
as a function (`compare(a,b) = -compare(b,a)` in every branch). -/
instance instIsTotalCompare (s : String) :
    IsTotal Token (fun a b => compareTokens s a b ≤ 0) := by
  constructor
  intro a b
  have h : compareTokens s a b = -(compareTokens s b a) := by
    unfold compareTokens compareByField
    split_ifs <;> ring
  rcases le_total (compareTokens s a b) 0 with h' | h'
  · exact Or.inl h'
  · right
    rw [h] at h'
    linarith

/-- The comparator-induced relation is transitive: every branch compares a
fixed numeric key scaled by a fixed direction. -/
instance instIsTransCompare (s : String) :
    IsTrans Token (fun a b => compareTokens s a b ≤ 0) := by
  constructor
  intro a b c hab hbc
  simp only at hab hbc ⊢
  unfold compareTokens compareByField at hab hbc ⊢
  split_ifs at hab hbc ⊢ <;> linarith

/-- Timestamp order on history samples is total. -/
instance instIsTotalTs :
    IsTotal HistorySample (fun a b => a.timestamp ≤ b.timestamp) :=
  ⟨fun a b => le_total a.timestamp b.timestamp⟩

/-- Timestamp order on history samples is transitive. -/
instance instIsTransTs :
    IsTrans HistorySample (fun a b => a.timestamp ≤ b.timestamp) :=
  ⟨fun _ _ _ h h' => le_trans h h'⟩

/-! Helper lemmas. -/

/-- Comparator evaluation at `sortBy = "age"`. -/
theorem compareTokens_age (a b : Token) :
    compareTokens "age" a b = (b.tokenAgeHours - a.tokenAgeHours) * (-1) := rfl

/-- Comparator evaluation at `sortBy = "age_asc"`. -/
theorem compareTokens_age_asc (a b : Token) :
    compareTokens "age_asc" a b = (b.tokenAgeHours - a.tokenAgeHours) * 1 := rfl

/-- Comparator evaluation at `sortBy = "holders"`. -/
theorem compareTokens_holders (a b : Token) :
    compareTokens "holders" a b = (a.gpHolderCount - b.gpHolderCount) * (-1) := rfl

/-- Comparator evaluation at `sortBy = "holders_asc"`. -/
theorem compareTokens_holders_asc (a b : Token) :
    compareTokens "holders_asc" a b = (a.gpHolderCount - b.gpHolderCount) * 1 := rfl

/-- Comparator evaluation at `sortBy = "liquidity"`. -/
theorem compareTokens_liquidity (a b : Token) :
    compareTokens "liquidity" a b = (a.hpLiquidityAmount - b.hpLiquidityAmount) * (-1) := rfl

/-- Comparator evaluation at `sortBy = "liquidity_asc"`. -/
theorem compareTokens_liquidity_asc (a b : Token) :
    compareTokens "liquidity_asc" a b = (a.hpLiquidityAmount - b.hpLiquidityAmount) * 1 := rfl

/-- Comparator evaluation at `sortBy = "safetyScore"`. -/
theorem compareTokens_safetyScore (a b : Token) :
    compareTokens "safetyScore" a b = (getRiskScore a - getRiskScore b) * (-1) := rfl

/-- Comparator evaluation at `sortBy = "safetyScore_asc"`. -/
theorem compareTokens_safetyScore_asc (a b : Token) :
    compareTokens "safetyScore_asc" a b = (getRiskScore a - getRiskScore b) * 1 := rfl

/-- The engine's output is pairwise ordered by the comparator relation. -/
theorem filteredTokens_pairwise (tokens : List Token) (f : FilterState) :
    (filteredTokens tokens f).Pairwise (fun a b => compareTokens f.sortBy a b ≤ 0) := by
  unfold filteredTokens
  exact List.Pairwise.sublist (List.take_sublist _ _) (List.sorted_insertionSort _ _)

/-- Both concrete benign tokens pass the default filter. -/
theorem tokenFilter_default_alpha : tokenFilter defaultFilters tokenAlpha = true := by decide

/-- `tokenBeta` passes the default filter as well. -/
theorem tokenFilter_default_beta : tokenFilter defaultFilters tokenBeta = true := by decide

/-- Concrete evaluation: the default sort places the younger `tokenAlpha`
first, regardless of input order. -/
theorem eval_filtered_AB :
    filteredTokens [tokenAlpha, tokenBeta] defaultFilters = [tokenAlpha, tokenBeta] := by
  have hc : compareTokens defaultFilters.sortBy tokenAlpha tokenBeta ≤ 0 := by
    rw [show defaultFilters.sortBy = "age" from rfl, compareTokens_age]
    norm_num [tokenAlpha, tokenBeta]
  simp only [filteredTokens, List.filter_cons, tokenFilter_default_alpha,
    tokenFilter_default_beta, if_true, List.filter_nil, List.insertionSort,
    List.orderedInsert, if_pos hc]
  rw [List.take_of_length_le (by decide)]

/-- Concrete evaluation with the input order reversed. -/
theorem eval_filtered_BA :
    filteredTokens [tokenBeta, tokenAlpha] defaultFilters = [tokenAlpha, tokenBeta] := by
  have hc : ¬ compareTokens defaultFilters.sortBy tokenBeta tokenAlpha ≤ 0 := by
    rw [show defaultFilters.sortBy = "age" from rfl, compareTokens_age]
    norm_num [tokenAlpha, tokenBeta]
  simp only [filteredTokens, List.filter_cons, tokenFilter_default_alpha,
    tokenFilter_default_beta, if_true, List.filter_nil, List.insertionSort,
    List.orderedInsert, if_neg hc]
  rw [List.take_of_length_le (by decide)]

/-! Claim C1. -/

/-- Claim C1 counterexample: with `hideDanger` set and a search query matching
the token's name, the predicate still rejects the danger-rated token — the
risk test runs before the search test, so the match does not override it. -/
theorem searchQuery_no_override_counterexample :
    searchMatches dangerSearchFilters.searchQuery tokenDanger = true ∧
    tokenFilter dangerSearchFilters tokenDanger = false ∧
    filteredTokens [tokenDanger] dangerSearchFilters = [] := by
  refine ⟨by decide, by decide, ?_⟩
  decide

/-- Claim C1, amended: when the searchQuery is non-empty and the token passes
all nine earlier tests of the chain (honeypot, risk, renounce, lock, holder
and liquidity thresholds), the search match is the predicate's final
verdict. -/
theorem tokenFilter_search_final_verdict (f : FilterState) (t : Token)
    (hq : f.searchQuery ≠ "")
    (h1 : ¬(f.hideHoneypots ∧ t.hpIsHoneypot))
    (h2 : ¬(f.showOnlyHoneypots ∧ ¬t.hpIsHoneypot))
    (h3 : ¬(f.hideDanger ∧ t.riskLevel = RiskLevel.danger))
    (h4 : ¬(f.hideWarning ∧ t.riskLevel = RiskLevel.warning))
    (h5 : ¬(f.showOnlySafe ∧ t.riskLevel ≠ RiskLevel.safe))
    (h6 : ¬(f.hideNotRenounced ∧ t.gpOwnerAddress ≠ zeroAddress))
    (h7 : ¬(f.hideUnlockedLiquidity ∧ lockFilterRejects t))
    (h8 : ¬(0 < f.minHolders ∧ t.gpHolderCount < f.minHolders))
    (h9 : ¬(0 < f.minLiquidity ∧ t.hpLiquidityAmount < f.minLiquidity)) :
    tokenFilter f t = searchMatches f.searchQuery t := by
  unfold tokenFilter
  rw [if_neg h1, if_neg h2, if_neg h3, if_neg h4, if_neg h5, if_neg h6, if_neg h7,
    if_neg h8, if_neg h9, if_pos hq]

/-- Claim C1 witness: concrete instantiation of the amended claim. -/
theorem tokenFilter_search_final_verdict_witness :
    tokenFilter searchFilters tokenAlpha = searchMatches searchFilters.searchQuery tokenAlpha :=
  tokenFilter_search_final_verdict searchFilters tokenAlpha (by decide) (by decide)
    (by decide) (by decide) (by decide) (by decide) (by decide) (by decide)
    (by decide) (by decide)

/-! Claim C2. -/

/-- Claim C2 counterexample: under the default `sortBy = "age"` (a recognized
field without the `_asc` suffix) the output is ascending, not descending, in
`tokenAgeHours` — the age branch flips the subtraction, so "age" means
newest-first. -/
theorem sortBy_age_descending_counterexample :
    defaultFilters.sortBy = "age" ∧
    filteredTokens [tokenAlpha, tokenBeta] defaultFilters = [tokenAlpha, tokenBeta] ∧
    tokenAlpha.tokenAgeHours < tokenBeta.tokenAgeHours ∧
    ¬ (filteredTokens [tokenAlpha, tokenBeta] defaultFilters).Pairwise
        (fun a b => b.tokenAgeHours ≤ a.tokenAgeHours) := by
  refine ⟨rfl, eval_filtered_AB, by norm_num [tokenAlpha, tokenBeta], ?_⟩
  rw [eval_filtered_AB]
  intro hp
  have h := (List.pairwise_cons.mp hp).1 tokenBeta (List.mem_singleton.mpr rfl)
  norm_num [tokenAlpha, tokenBeta] at h

/-- Claim C2, amended: `holders`, `liquidity` and `safetyScore` sort descending
on their key and their `_asc` variants ascending, while the `age` direction is
inverted: `sortBy = "age"` yields ascending `tokenAgeHours` (newest first) and
`"age_asc"` descending (oldest first). -/
theorem filteredTokens_sort_order (tokens : List Token) (f : FilterState) :
    (f.sortBy = "age" →
      (filteredTokens tokens f).Pairwise (fun a b => a.tokenAgeHours ≤ b.tokenAgeHours)) ∧
    (f.sortBy = "age_asc" →
      (filteredTokens tokens f).Pairwise (fun a b => b.tokenAgeHours ≤ a.tokenAgeHours)) ∧
    (f.sortBy = "holders" →
      (filteredTokens tokens f).Pairwise (fun a b => b.gpHolderCount ≤ a.gpHolderCount)) ∧
    (f.sortBy = "holders_asc" →
      (filteredTokens tokens f).Pairwise (fun a b => a.gpHolderCount ≤ b.gpHolderCount)) ∧
    (f.sortBy = "liquidity" →
      (filteredTokens tokens f).Pairwise (fun a b => b.hpLiquidityAmount ≤ a.hpLiquidityAmount)) ∧
    (f.sortBy = "liquidity_asc" →
      (filteredTokens tokens f).Pairwise (fun a b => a.hpLiquidityAmount ≤ b.hpLiquidityAmount)) ∧
    (f.sortBy = "safetyScore" →
      (filteredTokens tokens f).Pairwise (fun a b => getRiskScore b ≤ getRiskScore a)) ∧
    (f.sortBy = "safetyScore_asc" →
      (filteredTokens tokens f).Pairwise (fun a b => getRiskScore a ≤ getRiskScore b)) := by
  refine ⟨fun h => ?_, fun h => ?_, fun h => ?_, fun h => ?_, fun h => ?_, fun h => ?_,
    fun h => ?_, fun h => ?_⟩ <;>
    (have hp := filteredTokens_pairwise tokens f; rw [h] at hp)
  · exact hp.imp fun hab => by rw [compareTokens_age] at hab; linarith
  · exact hp.imp fun hab => by rw [compareTokens_age_asc] at hab; linarith
  · exact hp.imp fun hab => by rw [compareTokens_holders] at hab; linarith
  · exact hp.imp fun hab => by rw [compareTokens_holders_asc] at hab; linarith
  · exact hp.imp fun hab => by rw [compareTokens_liquidity] at hab; linarith
  · exact hp.imp fun hab => by rw [compareTokens_liquidity_asc] at hab; linarith
  · exact hp.imp fun hab => by rw [compareTokens_safetyScore] at hab; linarith
  · exact hp.imp fun hab => by rw [compareTokens_safetyScore_asc] at hab; linarith

/-- Claim C2 witness: concrete instantiation of the amended sort-order claim. -/
theorem filteredTokens_sort_order_witness :
    (filteredTokens [tokenAlpha] { defaultFilters with sortBy := "holders" }).Pairwise
      (fun a b => b.gpHolderCount ≤ a.gpHolderCount) :=
  (filteredTokens_sort_order [tokenAlpha] { defaultFilters with sortBy := "holders" }).2.2.1 rfl

/-! Claim C3. -/

/-- Claim C3 counterexample: sorting reorders the two surviving entries, so the
output is not a subsequence of the input. -/
theorem filteredTokens_sublist_counterexample :
    filteredTokens [tokenBeta, tokenAlpha] defaultFilters = [tokenAlpha, tokenBeta] ∧
    ¬ List.Sublist (filteredTokens [tokenBeta, tokenAlpha] defaultFilters)
        [tokenBeta, tokenAlpha] := by
  refine ⟨eval_filtered_BA, ?_⟩
  rw [eval_filtered_BA]
  decide

/-- Claim C3, amended: the engine's output draws all its entries from the
input — it is a permutation of a subsequence (`Subperm`) — and its length is
at most `maxRecords`. -/
theorem filteredTokens_subperm_maxRecords (tokens : List Token) (f : FilterState) :
    (filteredTokens tokens f).Subperm tokens ∧
    (filteredTokens tokens f).length ≤ f.maxRecords := by
  constructor
  · unfold filteredTokens
    exact (List.take_sublist _ _).subperm.trans
      ((List.perm_insertionSort _ _).subperm.trans (List.filter_sublist _).subperm)
  · unfold filteredTokens
    rw [List.length_take]
    exact min_le_left _ _

/-! Claim C6. -/

/-- Claim C6: with both honeypot toggles set, the two leading predicate tests
reject every token, so the engine's output is empty. -/
theorem filteredTokens_honeypot_conflict_empty (tokens : List Token) (f : FilterState)
    (h1 : f.hideHoneypots = true) (h2 : f.showOnlyHoneypots = true) :
    filteredTokens tokens f = [] := by
  have hfil : tokens.filter (tokenFilter f) = [] := by
    rw [List.filter_eq_nil_iff]
    intro t _
    have ht : tokenFilter f t = false := by
      unfold tokenFilter
      by_cases hp : t.hpIsHoneypot = true
      · rw [if_pos ⟨h1, hp⟩]
      · rw [if_neg (fun hc => hp hc.2), if_pos ⟨h2, hp⟩]
    simp [ht]
  unfold filteredTokens
  rw [hfil]
  simp [List.take_nil]

/-- Claim C6 witness: concrete instantiation of the honeypot-conflict claim. -/
theorem filteredTokens_honeypot_conflict_empty_witness :
    filteredTokens [tokenAlpha, tokenDanger] honeypotConflictFilters = [] :=
  filteredTokens_honeypot_conflict_empty [tokenAlpha, tokenDanger]
    honeypotConflictFilters rfl rfl

/-! Claim C7. -/

/-- Claim C7: the bulk toggle collapses everything as soon as any currently
filtered token is expanded, and otherwise expands exactly the identifiers of
the currently filtered tokens. -/
theorem toggleExpandAll_spec (tokens : List Token) (f : FilterState) (prev : Finset String) :
    ((∃ t ∈ filteredTokens tokens f, t.tokenAddress ∈ prev) →
      toggleExpandAll (filteredTokens tokens f) prev = ∅) ∧
    ((∀ t ∈ filteredTokens tokens f, t.tokenAddress ∉ prev) →
      ∀ a, a ∈ toggleExpandAll (filteredTokens tokens f) prev ↔
        ∃ t ∈ filteredTokens tokens f, t.tokenAddress = a) := by
  constructor
  · intro h
    unfold toggleExpandAll
    rw [if_pos h]
  · intro h a
    unfold toggleExpandAll
    rw [if_neg (fun hc => by obtain ⟨t, ht, hmem⟩ := hc; exact h t ht hmem)]
    simp [List.mem_toFinset, List.mem_map]

/-- Claim C7 witness: one of one filtered token already expanded, so the bulk
operation collapses all. -/
theorem toggleExpandAll_spec_witness :
    toggleExpandAll (filteredTokens [tokenAlpha] defaultFilters) {"0xaaaa"} = ∅ :=
  (toggleExpandAll_spec [tokenAlpha] defaultFilters {"0xaaaa"}).1 (by decide)

/-! Claim C8. -/

/-- Claim C8: toggling a token present in the filtered sequence deletes the
measured height of exactly that token's view index and requests a
scroll-to-index at that index. -/
theorem handleTokenClick_effects (tokens : List Token) (f : FilterState)
    (expanded : Finset String) (heights : ℤ → Option ℚ) (addr : String)
    (hmem : ∃ t ∈ filteredTokens tokens f, t.tokenAddress = addr) :
    0 ≤ findTokenIdx (filteredTokens tokens f) addr ∧
    (handleTokenClick (filteredTokens tokens f) expanded heights addr).measuredHeights
        (findTokenIdx (filteredTokens tokens f) addr) = none ∧
    (∀ j : ℤ, j ≠ findTokenIdx (filteredTokens tokens f) addr →
      (handleTokenClick (filteredTokens tokens f) expanded heights addr).measuredHeights j =
        heights j) ∧
    (handleTokenClick (filteredTokens tokens f) expanded heights addr).scrollTarget =
      some (findTokenIdx (filteredTokens tokens f) addr) := by
  obtain ⟨t, ht, heq⟩ := hmem
  cases hn : (filteredTokens tokens f).findIdx? (fun x => x.tokenAddress == addr) with
  | none =>
    exfalso
    have hf := List.findIdx?_eq_none_iff.mp hn t ht
    simp [heq] at hf
  | some n =>
    have hidx : findTokenIdx (filteredTokens tokens f) addr = (n : ℤ) := by
      unfold findTokenIdx
      rw [hn]
    refine ⟨by rw [hidx]; exact Int.natCast_nonneg n, ?_, ?_, ?_⟩
    · simp [handleTokenClick]
    · intro j hj
      simp [handleTokenClick, hj]
    · simp only [handleTokenClick, hidx]
      rw [if_pos (Int.natCast_nonneg n)]

/-- Claim C8 witness: concrete instantiation on a singleton filtered list. -/
theorem handleTokenClick_effects_witness :
    (handleTokenClick (filteredTokens [tokenAlpha] defaultFilters) ∅
        (fun _ => some 100) "0xaaaa").measuredHeights
      (findTokenIdx (filteredTokens [tokenAlpha] defaultFilters) "0xaaaa") = none ∧
    (handleTokenClick (filteredTokens [tokenAlpha] defaultFilters) ∅
        (fun _ => some 100) "0xaaaa").scrollTarget =
      some (findTokenIdx (filteredTokens [tokenAlpha] defaultFilters) "0xaaaa") :=
  ⟨(handleTokenClick_effects [tokenAlpha] defaultFilters ∅ (fun _ => some 100) "0xaaaa"
      (by decide)).2.1,
   (handleTokenClick_effects [tokenAlpha] defaultFilters ∅ (fun _ => some 100) "0xaaaa"
      (by decide)).2.2.2⟩

/-! Claim C9. -/

/-- Claim C9: at initialization the cache loader returns the stored mapping
only for a present, parsed blob younger than five minutes; a blob five or more
minutes old, or an absent/malformed blob, yields the empty cache. -/
theorem loadCachedHistories_spec (now : ℤ) :
    loadCachedHistories none now = [] ∧
    (∀ blob : HistoryCacheBlob, HISTORY_CACHE_EXPIRY ≤ now - blob.timestamp →
      loadCachedHistories (some blob) now = []) ∧
    (∀ blob : HistoryCacheBlob, now - blob.timestamp < HISTORY_CACHE_EXPIRY →
      loadCachedHistories (some blob) now = blob.data) := by
  refine ⟨rfl, ?_, ?_⟩
  · intro blob h
    show (if now - blob.timestamp < HISTORY_CACHE_EXPIRY then blob.data else []) = []
    rw [if_neg (not_lt.mpr h)]
  · intro blob h
    show (if now - blob.timestamp < HISTORY_CACHE_EXPIRY then blob.data else []) = blob.data
    rw [if_pos h]

/-- Claim C9 witness: a blob six minutes old is treated as empty. -/
theorem loadCachedHistories_spec_witness :
    HISTORY_CACHE_EXPIRY ≤ 360000 - staleBlob.timestamp ∧
    loadCachedHistories (some staleBlob) 360000 = [] :=
  ⟨by decide, (loadCachedHistories_spec 360000).2.1 staleBlob (by decide)⟩

/-! Claim C10. -/

/-- Claim C10: `estimateSize` is total over all integer indices; an index with
no token yields the collapsed constant, a stored measurement of exactly 0 is
ignored in favor of the expansion-based fallback, and only a nonzero stored
measurement is returned as-is. -/
theorem estimateSize_spec (cur : List Token) (heights : ℤ → Option ℚ)
    (expanded : Finset String) (i : ℤ) :
    COLLAPSED_HEIGHT = 42 ∧ EXPANDED_HEIGHT = 800 ∧
    (listGetJS cur i = none → estimateSize cur heights expanded i = COLLAPSED_HEIGHT) ∧
    (∀ t : Token, listGetJS cur i = some t → heights i = some 0 →
      estimateSize cur heights expanded i =
        (if t.tokenAddress ∈ expanded then EXPANDED_HEIGHT else COLLAPSED_HEIGHT)) ∧
    (∀ (t : Token) (h : ℚ), listGetJS cur i = some t → heights i = some h → h ≠ 0 →
      estimateSize cur heights expanded i = h) := by
  refine ⟨rfl, rfl, ?_, ?_, ?_⟩
  · intro hget
    unfold estimateSize
    rw [hget]
  · intro t hget hh
    unfold estimateSize
    rw [hget, hh]
    simp
  · intro t h hget hh hne
    unfold estimateSize
    rw [hget, hh]
    simp [hne]

/-- Claim C10 witness: a stored zero measurement is ignored and the collapsed
fallback returned. -/
theorem estimateSize_spec_witness :
    estimateSize [tokenAlpha] (fun _ => some 0) ∅ 0 = COLLAPSED_HEIGHT := by
  have h := (estimateSize_spec [tokenAlpha] (fun _ => some 0) ∅ 0).2.2.2.1 tokenAlpha
    (by decide) rfl
  simpa using h

/-! Regression-slope helper lemmas for the Trend Estimator claims. -/

/-- `foldl (+)` over rationals accumulates the list sum. -/
theorem foldl_add_eq (l : List ℚ) (c : ℚ) : l.foldl (· + ·) c = c + l.sum := by
  induction l generalizing c with
  | nil => simp
  | cons a t ih => rw [List.foldl_cons, ih, List.sum_cons]; ring

/-- A rational list sum as a `Finset.range` sum of its entries. -/
theorem sum_eq_sum_getD (ys : List ℚ) :
    ys.sum = ∑ i ∈ Finset.range ys.length, ys.getD i 0 := by
  induction ys with
  | nil => simp
  | cons y t ih =>
    rw [List.sum_cons, ih, List.length_cons, Finset.sum_range_succ']
    simp only [List.getD_cons_zero, List.getD_cons_succ]
    ring

/-- Sum of a function mapped over `List.range` as a `Finset.range` sum. -/
theorem range_map_sum (n : ℕ) (h : ℕ → ℚ) :
    ((List.range n).map h).sum = ∑ i ∈ Finset.range n, h i := by
  induction n with
  | zero => simp
  | succ m ih =>
    rw [List.range_succ, List.map_append, List.sum_append, Finset.sum_range_succ, ih]
    simp

/-- Sum over the zip of cast indices with the list entries, with a running
start index. -/
theorem zip_range_sum (g : ℚ → ℚ → ℚ) (ys : List ℚ) :
    ∀ k : ℕ,
      ((((List.range' k ys.length).map fun i : ℕ => (i : ℚ)).zip ys).map
        (fun p => g p.1 p.2)).sum
      = ∑ i ∈ Finset.range ys.length, g (((k + i : ℕ) : ℚ)) (ys.getD i 0) := by
  induction ys with
  | nil => intro k; simp
  | cons y t ih =>
    intro k
    rw [List.length_cons, List.range'_succ, List.map_cons, List.zip_cons_cons,
      List.map_cons, List.sum_cons, ih (k + 1), Finset.sum_range_succ']
    simp only [List.getD_cons_zero, List.getD_cons_succ, Nat.add_zero]
    have hsum : ∀ i ∈ Finset.range t.length,
        g (((k + 1) + i : ℕ) : ℚ) (t.getD i 0) = g ((k + (i + 1) : ℕ) : ℚ) (t.getD i 0) := by
      intro i _
      rw [show k + 1 + i = k + (i + 1) from by omega]
    rw [Finset.sum_congr rfl hsum]
    exact add_comm _ _

/-- The numerator fold of `regressionSlope` as a `Finset.range` sum. -/
theorem num_sum_eq (xm ym : ℚ) (ys : List ℚ) :
    ((((List.range ys.length).map fun i : ℕ => (i : ℚ)).zip ys).map
      (fun p => (p.1 - xm) * (p.2 - ym))).foldl (· + ·) 0
    = ∑ i ∈ Finset.range ys.length, ((i : ℚ) - xm) * (ys.getD i 0 - ym) := by
  rw [foldl_add_eq, zero_add, List.range_eq_range']
  have h := zip_range_sum (fun x y => (x - xm) * (y - ym)) ys 0
  simpa using h

/-- The denominator fold of `regressionSlope` as a `Finset.range` sum. -/
theorem den_sum_eq (xm : ℚ) (n : ℕ) :
    (((List.range n).map fun i : ℕ => (i : ℚ)).map (fun x => (x - xm) ^ 2)).foldl (· + ·) 0
    = ∑ i ∈ Finset.range n, ((i : ℚ) - xm) ^ 2 := by
  rw [foldl_add_eq, zero_add, List.map_map, range_map_sum]
  simp [Function.comp]

/-- The x-mean fold of `regressionSlope` as a `Finset.range` sum. -/
theorem mean_eq (n : ℕ) :
    rSum ((List.range n).map fun i : ℕ => (i : ℚ)) = ∑ i ∈ Finset.range n, (i : ℚ) := by
  unfold rSum
  rw [foldl_add_eq, zero_add, range_map_sum]

/-- `rSum` as a `Finset.range` sum of the entries. -/
theorem rSum_eq (ys : List ℚ) :
    rSum ys = ∑ i ∈ Finset.range ys.length, ys.getD i 0 := by
  unfold rSum
  rw [foldl_add_eq, zero_add, sum_eq_sum_getD]

/-- `regressionSlope` in closed `Finset.range` form. -/
theorem regressionSlope_eq (ys : List ℚ) :
    regressionSlope ys =
      (∑ i ∈ Finset.range ys.length,
        ((i : ℚ) - (∑ j ∈ Finset.range ys.length, (j : ℚ)) / (ys.length : ℚ)) *
        (ys.getD i 0 - (∑ j ∈ Finset.range ys.length, ys.getD j 0) / (ys.length : ℚ))) /
      (∑ i ∈ Finset.range ys.length,
        ((i : ℚ) - (∑ j ∈ Finset.range ys.length, (j : ℚ)) / (ys.length : ℚ)) ^ 2) := by
  simp only [regressionSlope]
  rw [num_sum_eq, den_sum_eq, mean_eq, rSum_eq]
  simp [List.length_map, List.length_range]

/-- Expansion of the centered numerator sum: it is the raw index-value moment
minus the product of the sums over the length. -/
theorem num_sum_expand (ys : List ℚ) (hn : ((ys.length : ℚ)) ≠ 0) :
    (∑ i ∈ Finset.range ys.length,
      ((i : ℚ) - (∑ j ∈ Finset.range ys.length, (j : ℚ)) / (ys.length : ℚ)) *
      (ys.getD i 0 - (∑ j ∈ Finset.range ys.length, ys.getD j 0) / (ys.length : ℚ)))
    = (∑ i ∈ Finset.range ys.length, (i : ℚ) * ys.getD i 0)
      - (∑ j ∈ Finset.range ys.length, (j : ℚ)) *
        (∑ j ∈ Finset.range ys.length, ys.getD j 0) / (ys.length : ℚ) := by
  have hexp : ∀ i ∈ Finset.range ys.length,
      ((i : ℚ) - (∑ j ∈ Finset.range ys.length, (j : ℚ)) / (ys.length : ℚ)) *
      (ys.getD i 0 - (∑ j ∈ Finset.range ys.length, ys.getD j 0) / (ys.length : ℚ))
      = (i : ℚ) * ys.getD i 0
        - ((∑ j ∈ Finset.range ys.length, ys.getD j 0) / (ys.length : ℚ)) * (i : ℚ)
        - ((∑ j ∈ Finset.range ys.length, (j : ℚ)) / (ys.length : ℚ)) * ys.getD i 0
        + ((∑ j ∈ Finset.range ys.length, (j : ℚ)) / (ys.length : ℚ)) *
          ((∑ j ∈ Finset.range ys.length, ys.getD j 0) / (ys.length : ℚ)) := by
    intro i _
    ring
  rw [Finset.sum_congr rfl hexp, Finset.sum_add_distrib, Finset.sum_sub_distrib,
    Finset.sum_sub_distrib, ← Finset.mul_sum, ← Finset.mul_sum, Finset.sum_const,
    Finset.card_range, nsmul_eq_mul]
  field_simp
  ring

/-- The centered denominator sum is nonnegative. -/
theorem den_sum_nonneg (xm : ℚ) (n : ℕ) :
    0 ≤ ∑ i ∈ Finset.range n, ((i : ℚ) - xm) ^ 2 :=
  Finset.sum_nonneg fun _ _ => sq_nonneg _

/-- Chebyshev-style bound: for a nondecreasing list, the centered numerator sum
is nonnegative. -/
theorem num_sum_nonneg_of_monotone (ys : List ℚ) (hmono : ys.Pairwise (· ≤ ·)) :
    0 ≤ ∑ i ∈ Finset.range ys.length,
      ((i : ℚ) - (∑ j ∈ Finset.range ys.length, (j : ℚ)) / (ys.length : ℚ)) *
      (ys.getD i 0 - (∑ j ∈ Finset.range ys.length, ys.getD j 0) / (ys.length : ℚ)) := by
  rcases Nat.eq_zero_or_pos ys.length with h0 | hpos
  · simp [h0]
  · have hn : (0 : ℚ) < (ys.length : ℚ) := by exact_mod_cast hpos
    have hmv : MonovaryOn (fun i : ℕ => (i : ℚ)) (fun i : ℕ => ys.getD i 0)
        (Finset.range ys.length) := by
      intro i hi j hj hlt
      by_contra hij
      push_neg at hij
      have hji : j < i := by exact_mod_cast hij
      have hilen : i < ys.length := Finset.mem_range.mp (Finset.mem_coe.mp hi)
      have hjlen : j < ys.length := Finset.mem_range.mp (Finset.mem_coe.mp hj)
      have hle := List.pairwise_iff_getElem.mp hmono j i hjlen hilen hji
      rw [← List.getD_eq_getElem ys 0 hjlen, ← List.getD_eq_getElem ys 0 hilen] at hle
      exact absurd hlt (not_lt.mpr hle)
    have cheb := hmv.sum_mul_sum_le_card_mul_sum
    rw [Finset.card_range] at cheb
    rw [num_sum_expand ys (ne_of_gt hn), sub_nonneg, div_le_iff₀ hn]
    linarith [cheb]

/-- Chebyshev-style bound: for a nonincreasing list, the centered numerator sum
is nonpositive. -/
theorem num_sum_nonpos_of_antitone (ys : List ℚ) (hanti : ys.Pairwise (fun a b => b ≤ a)) :
    (∑ i ∈ Finset.range ys.length,
      ((i : ℚ) - (∑ j ∈ Finset.range ys.length, (j : ℚ)) / (ys.length : ℚ)) *
      (ys.getD i 0 - (∑ j ∈ Finset.range ys.length, ys.getD j 0) / (ys.length : ℚ))) ≤ 0 := by
  rcases Nat.eq_zero_or_pos ys.length with h0 | hpos
  · simp [h0]
  · have hn : (0 : ℚ) < (ys.length : ℚ) := by exact_mod_cast hpos
    have hav : AntivaryOn (fun i : ℕ => (i : ℚ)) (fun i : ℕ => ys.getD i 0)
        (Finset.range ys.length) := by
      intro i hi j hj hlt
      by_contra hij
      push_neg at hij
      have hji : i < j := by exact_mod_cast hij
      have hilen : i < ys.length := Finset.mem_range.mp (Finset.mem_coe.mp hi)
      have hjlen : j < ys.length := Finset.mem_range.mp (Finset.mem_coe.mp hj)
      have hle := List.pairwise_iff_getElem.mp hanti i j hilen hjlen hji
      rw [← List.getD_eq_getElem ys 0 hjlen, ← List.getD_eq_getElem ys 0 hilen] at hle
      exact absurd hlt (not_lt.mpr hle)
    have cheb := hav.card_mul_sum_le_sum_mul_sum
    rw [Finset.card_range] at cheb
    rw [num_sum_expand ys (ne_of_gt hn), sub_nonpos, le_div_iff₀ hn]
    linarith [cheb]

/-- The slope of a nondecreasing y-sequence is nonnegative. -/
theorem regressionSlope_nonneg_of_monotone (ys : List ℚ) (hmono : ys.Pairwise (· ≤ ·)) :
    0 ≤ regressionSlope ys := by
  rw [regressionSlope_eq]
  exact div_nonneg (num_sum_nonneg_of_monotone ys hmono) (den_sum_nonneg _ _)

/-- The slope of a nonincreasing y-sequence is nonpositive. -/
theorem regressionSlope_nonpos_of_antitone (ys : List ℚ)
    (hanti : ys.Pairwise (fun a b => b ≤ a)) :
    regressionSlope ys ≤ 0 := by
  rw [regressionSlope_eq]
  exact div_nonpos_of_nonpos_of_nonneg (num_sum_nonpos_of_antitone ys hanti)
    (den_sum_nonneg _ _)

/-- The slope of a list with fewer than two entries is zero. -/
theorem regressionSlope_short (ys : List ℚ) (h : ys.length < 2) : regressionSlope ys = 0 := by
  match ys, h with
  | [], _ =>
    simp [regressionSlope, rSum]
  | [y], _ =>
    rw [regressionSlope_eq]
    norm_num

/-- The slope of a constant y-sequence is zero. -/
theorem regressionSlope_zero_of_const (ys : List ℚ) (v : ℚ) (hconst : ∀ y ∈ ys, y = v) :
    regressionSlope ys = 0 := by
  rw [regressionSlope_eq]
  rcases Nat.eq_zero_or_pos ys.length with h0 | hpos
  · simp [h0]
  · have hn : ((ys.length : ℚ)) ≠ 0 := by
      have : (0 : ℚ) < (ys.length : ℚ) := by exact_mod_cast hpos
      exact ne_of_gt this
    have hgetD : ∀ i ∈ Finset.range ys.length, ys.getD i 0 = v := by
      intro i hi
      have hlt := Finset.mem_range.mp hi
      rw [List.getD_eq_getElem ys 0 hlt]
      exact hconst _ (List.getElem_mem hlt)
    have hY : (∑ j ∈ Finset.range ys.length, ys.getD j 0) = (ys.length : ℚ) * v := by
      rw [Finset.sum_congr rfl hgetD, Finset.sum_const, Finset.card_range, nsmul_eq_mul]
    have hterm : ∀ i ∈ Finset.range ys.length,
        ((i : ℚ) - (∑ j ∈ Finset.range ys.length, (j : ℚ)) / (ys.length : ℚ)) *
        (ys.getD i 0 - (∑ j ∈ Finset.range ys.length, ys.getD j 0) / (ys.length : ℚ)) = 0 := by
      intro i hi
      rw [hgetD i hi, hY, mul_div_cancel_left₀ v hn, sub_self, mul_zero]
    rw [Finset.sum_congr rfl hterm, Finset.sum_const_zero, zero_div]

/-- `calculateTrend` with its guard and classification spelled out. -/
theorem calculateTrend_eq (history : List HistorySample) (ty : TrendMetric) :
    calculateTrend history ty =
      if history.length < 2 then TrendValue.stagnant
      else if |regressionSlope ((sortHistory history).map (selectY ty))| < 0.05 then
        TrendValue.stagnant
      else if 0 < regressionSlope ((sortHistory history).map (selectY ty)) then TrendValue.up
      else TrendValue.down := rfl

/-- Re-sorting and selecting preserves the number of samples. -/
theorem sortHistory_map_length (history : List HistorySample) (ty : TrendMetric) :
    ((sortHistory history).map (selectY ty)).length = history.length := by
  rw [List.length_map]
  exact List.length_insertionSort _ _

/-! Claim C4. -/

/-- Claim C4 counterexample: two samples with strictly increasing liquidity
values 0 and 1/100 yield slope 1/100, below the 0.05 threshold, so the
estimator returns stagnant, not up. -/
theorem calculateTrend_increasing_up_counterexample :
    ((sortHistory [sampleT0, sampleT1]).map (selectY TrendMetric.liquidity)).Pairwise
      (· < ·) ∧
    calculateTrend [sampleT0, sampleT1] TrendMetric.liquidity = TrendValue.stagnant := by
  have hys : (sortHistory [sampleT0, sampleT1]).map (selectY TrendMetric.liquidity)
      = [0, 1/100] := by
    norm_num [sortHistory, List.insertionSort, List.orderedInsert, selectY,
      sampleT0, sampleT1]
  have hslope : regressionSlope [(0 : ℚ), 1/100] = 1/100 := by
    simp [regressionSlope, rSum, show List.range 2 = [0, 1] from rfl, List.zip]
    norm_num
  constructor
  · rw [hys]
    norm_num [List.pairwise_cons]
  · rw [calculateTrend_eq, if_neg (by norm_num), hys, hslope,
      abs_of_nonneg (by norm_num : (0:ℚ) ≤ 1/100)]
    norm_num

/-- Claim C4, amended: fewer than two samples or constant selected values give
stagnant; strictly increasing selected values never give down — they give up
exactly when the index-regression slope reaches the 0.05 threshold, else
stagnant — and symmetrically strictly decreasing values never give up. -/
theorem calculateTrend_classification (history : List HistorySample) (ty : TrendMetric) :
    (history.length < 2 → calculateTrend history ty = TrendValue.stagnant) ∧
    (∀ v : ℚ, (∀ y ∈ (sortHistory history).map (selectY ty), y = v) →
      calculateTrend history ty = TrendValue.stagnant) ∧
    (((sortHistory history).map (selectY ty)).Pairwise (· < ·) →
      calculateTrend history ty =
        if (0.05 : ℚ) ≤ regressionSlope ((sortHistory history).map (selectY ty))
        then TrendValue.up else TrendValue.stagnant) ∧
    (((sortHistory history).map (selectY ty)).Pairwise (fun a b => b < a) →
      calculateTrend history ty =
        if regressionSlope ((sortHistory history).map (selectY ty)) ≤ -(0.05 : ℚ)
        then TrendValue.down else TrendValue.stagnant) := by
  refine ⟨?_, ?_, ?_, ?_⟩
  · intro h
    rw [calculateTrend_eq, if_pos h]
  · intro v hconst
    by_cases h : history.length < 2
    · rw [calculateTrend_eq, if_pos h]
    · have h0 := regressionSlope_zero_of_const _ v hconst
      rw [calculateTrend_eq, if_neg h, h0]
      norm_num
  · intro hinc
    have hmono : ((sortHistory history).map (selectY ty)).Pairwise (· ≤ ·) :=
      hinc.imp fun hab => le_of_lt hab
    have hs := regressionSlope_nonneg_of_monotone _ hmono
    by_cases h : history.length < 2
    · have h0 : regressionSlope ((sortHistory history).map (selectY ty)) = 0 :=
        regressionSlope_short _ (by rw [sortHistory_map_length]; exact h)
      rw [calculateTrend_eq, if_pos h, h0]
      norm_num
    · rw [calculateTrend_eq, if_neg h, abs_of_nonneg hs]
      by_cases hc : regressionSlope ((sortHistory history).map (selectY ty)) < 0.05
      · rw [if_pos hc, if_neg (not_le.mpr hc)]
      · rw [if_neg hc, if_pos (lt_of_lt_of_le (by norm_num) (not_lt.mp hc)),
          if_pos (not_lt.mp hc)]
  · intro hdec
    have hanti : ((sortHistory history).map (selectY ty)).Pairwise (fun a b => b ≤ a) :=
      hdec.imp fun hab => le_of_lt hab
    have hs := regressionSlope_nonpos_of_antitone _ hanti
    by_cases h : history.length < 2
    · have h0 : regressionSlope ((sortHistory history).map (selectY ty)) = 0 :=
        regressionSlope_short _ (by rw [sortHistory_map_length]; exact h)
      rw [calculateTrend_eq, if_pos h, h0]
      norm_num
    · rw [calculateTrend_eq, if_neg h, abs_of_nonpos hs]
      have h05 : (0.05 : ℚ) = 1/20 := by norm_num
      by_cases hc : -(regressionSlope ((sortHistory history).map (selectY ty))) < 0.05
      · rw [if_pos hc, if_neg (by rw [h05] at hc ⊢; intro hcon; linarith)]
      · have hle : regressionSlope ((sortHistory history).map (selectY ty)) ≤ -(0.05 : ℚ) := by
          rw [h05] at hc ⊢
          have := not_lt.mp hc
          linarith
        rw [if_neg hc, if_neg (by rw [h05] at hle; intro hcon; linarith), if_pos hle]

/-- Claim C4 witness: strictly increasing holder counts on two samples are
classified through the slope threshold. -/
theorem calculateTrend_classification_witness :
    calculateTrend [sampleT0, sampleT1] TrendMetric.holders =
      if (0.05 : ℚ) ≤
          regressionSlope ((sortHistory [sampleT0, sampleT1]).map (selectY TrendMetric.holders))
      then TrendValue.up else TrendValue.stagnant :=
  (calculateTrend_classification [sampleT0, sampleT1] TrendMetric.holders).2.2.1 (by decide)

/-! Claim C5. -/

/-- Claim C5: on sample lists with pairwise-distinct timestamps the estimator
is invariant under permutation of the input — the internal re-sort normalizes
the order. -/
theorem calculateTrend_perm_invariant (h₁ h₂ : List HistorySample) (ty : TrendMetric)
    (hperm : h₁.Perm h₂)
    (hts : h₁.Pairwise (fun a b => a.timestamp ≠ b.timestamp)) :
    calculateTrend h₁ ty = calculateTrend h₂ ty := by
  have hlen : h₁.length = h₂.length := hperm.length_eq
  have hsymm : ∀ {x y : HistorySample},
      x.timestamp ≠ y.timestamp → y.timestamp ≠ x.timestamp := fun hxy => hxy.symm
  have hsorteq : sortHistory h₁ = sortHistory h₂ := by
    have hp : (sortHistory h₁).Perm (sortHistory h₂) :=
      (List.perm_insertionSort _ h₁).trans (hperm.trans (List.perm_insertionSort _ h₂).symm)
    have hs₁ : (sortHistory h₁).Pairwise (fun a b => a.timestamp ≤ b.timestamp) :=
      List.sorted_insertionSort _ h₁
    have hs₂ : (sortHistory h₂).Pairwise (fun a b => a.timestamp ≤ b.timestamp) :=
      List.sorted_insertionSort _ h₂
    have hne₁ : (sortHistory h₁).Pairwise (fun a b => a.timestamp ≠ b.timestamp) :=
      ((List.perm_insertionSort _ h₁).pairwise_iff hsymm).mpr hts
    have hne₂ : (sortHistory h₂).Pairwise (fun a b => a.timestamp ≠ b.timestamp) :=
      (hp.pairwise_iff hsymm).mp hne₁
    have hst₁ : (sortHistory h₁).Pairwise (fun a b => a.timestamp < b.timestamp) :=
      (hs₁.and hne₁).imp fun hab => lt_of_le_of_ne hab.1 hab.2
    have hst₂ : (sortHistory h₂).Pairwise (fun a b => a.timestamp < b.timestamp) :=
      (hs₂.and hne₂).imp fun hab => lt_of_le_of_ne hab.1 hab.2
    haveI : IsAntisymm HistorySample (fun a b => a.timestamp < b.timestamp) :=
      ⟨fun _ _ hab hba => absurd (hab.trans hba) (lt_irrefl _)⟩
    exact List.eq_of_perm_of_sorted hp hst₁ hst₂
  rw [calculateTrend_eq, calculateTrend_eq, hlen, hsorteq]

/-- Claim C5 witness: swapping two distinct-timestamp samples leaves the trend
unchanged. -/
theorem calculateTrend_perm_invariant_witness :
    calculateTrend [sampleT1, sampleT0] TrendMetric.holders =
      calculateTrend [sampleT0, sampleT1] TrendMetric.holders :=
  calculateTrend_perm_invariant [sampleT1, sampleT0] [sampleT0, sampleT1]
    TrendMetric.holders (List.Perm.swap sampleT0 sampleT1 []) (by decide)

end TokenList
